import Mathlib

/-
Verification development for the python-raster-stats repository
(src/rasterstats/utils.py and src/rasterstats/cli.py).

The Python source is shallowly embedded: pure functions become Lean
functions over Nat / Int / Rat and lists, numpy arrays become index
functions or lists, raised ValueError becomes Option / Except, and the
external rasterio rasterization is an oracle parameter.  Real (IEEE)
arithmetic of the source is modelled exactly over the rationals.
-/

set_option maxRecDepth 8000

deriving instance DecidableEq for Except

/-! ## Python string primitives -/

/-- Model of Python `str.replace(pat, rep)` on explicit character lists:
replaces every non-overlapping occurrence of `pat`, scanning left to
right.  The first argument `fuel` bounds the recursion by the length of
the scanned list.  An empty pattern leaves the string unchanged (the only
call site uses the fixed pattern `"percentile_"`). -/
def pyReplaceAux (pat rep : List Char) : Nat → List Char → List Char
  | _, [] => []
  | 0, rest => rest
  | fuel + 1, c :: cs =>
    if pat.isPrefixOf (c :: cs) && !pat.isEmpty then
      rep ++ pyReplaceAux pat rep fuel (List.drop (pat.length - 1) cs)
    else
      c :: pyReplaceAux pat rep fuel cs

/-- Model of Python `s.replace(pat, rep)`. -/
def pyReplace (s pat rep : String) : String :=
  ⟨pyReplaceAux pat.toList rep.toList s.toList.length s.toList⟩

/-- Model of Python `s.startswith(p)`. -/
def pyStartsWith (s p : String) : Bool :=
  p.toList.isPrefixOf s.toList

/-- Model of Python `s.lower()` (ASCII case folding suffices for the
statistic names that occur here). -/
def pyLower (s : String) : String :=
  ⟨s.toList.map Char.toLower⟩

/-- Helper for `pySplitWs`: split on runs of whitespace, discarding empty
fields; `acc` holds the current field reversed. -/
def splitWsAux : List Char → List Char → List (List Char)
  | [], acc => if acc.isEmpty then [] else [acc.reverse]
  | c :: cs, acc =>
    if c.isWhitespace then
      if acc.isEmpty then splitWsAux cs [] else acc.reverse :: splitWsAux cs []
    else
      splitWsAux cs (c :: acc)

/-- Model of Python `s.split()` (no separator argument): split on runs of
whitespace and drop empty fields. -/
def pySplitWs (s : String) : List String :=
  (splitWsAux s.toList []).map fun cs => ⟨cs⟩

/-- Helper for `pySplitSpace`: split on each single space character,
keeping empty fields; `acc` holds the current field reversed. -/
def splitSpaceAux : List Char → List Char → List (List Char)
  | [], acc => [acc.reverse]
  | c :: cs, acc =>
    if c = ' ' then acc.reverse :: splitSpaceAux cs []
    else splitSpaceAux cs (c :: acc)

/-- Model of Python `s.split(" ")`: split on every single space character,
keeping empty fields (so `"".split(" ") = [""]`). -/
def pySplitSpace (s : String) : List String :=
  (splitSpaceAux s.toList []).map fun cs => ⟨cs⟩

/-! ## Python float parsing

`float(qstr)` in `get_percentile` is modelled exactly over the rationals.
Python floats distinguish NaN and the two infinities, which matter here
because `float("nan")`, `float("inf")` parse successfully and then flow
into the range comparisons, so the parse result is an extended value.
Not modelled (irrelevant to the percentile strings considered below):
digit-group underscores, non-ASCII digits, and the final rounding of the
decimal literal to binary float64 (values are kept as exact rationals). -/

/-- Result of Python `float(...)`: a finite value (exact rational), NaN,
or an infinity. -/
inductive PyFloat where
  | num (q : ℚ)
  | nan
  | inf
  | neginf
deriving DecidableEq

/-- Numeric value of a list of decimal digit characters. -/
def digitsToNat (cs : List Char) : Nat :=
  cs.foldl (fun acc c => acc * 10 + (c.toNat - 48)) 0

/-- Parse the optional exponent part (`e`/`E`, optional sign, digits) that
may follow a decimal mantissa; fails if anything else remains. -/
def parseExp (cs : List Char) (mant : ℚ) : Option ℚ :=
  match cs with
  | [] => some mant
  | c :: r =>
    if c = 'e' ∨ c = 'E' then
      let sr : Bool × List Char :=
        match r with
        | '+' :: rr => (false, rr)
        | '-' :: rr => (true, rr)
        | rr => (false, rr)
      let ed := sr.2.takeWhile Char.isDigit
      let rest := sr.2.dropWhile Char.isDigit
      if ed.isEmpty || !rest.isEmpty then none
      else
        some (mant * (10 : ℚ) ^
          (if sr.1 then -(digitsToNat ed : ℤ) else (digitsToNat ed : ℤ)))
    else none

/-- Parse an unsigned decimal literal `digits [. digits] [exponent]`
(at least one digit in the mantissa) to an exact rational. -/
def parseDecimal (cs : List Char) : Option ℚ :=
  let ip := cs.takeWhile Char.isDigit
  let rest1 := cs.dropWhile Char.isDigit
  match rest1 with
  | '.' :: r2 =>
    let fp := r2.takeWhile Char.isDigit
    let rest2 := r2.dropWhile Char.isDigit
    if ip.isEmpty && fp.isEmpty then none
    else
      parseExp rest2
        ((digitsToNat ip : ℚ) + (digitsToNat fp : ℚ) / (10 : ℚ) ^ fp.length)
  | _ =>
    if ip.isEmpty then none else parseExp rest1 (digitsToNat ip : ℚ)

/-- Model of Python `float(s)`: strip surrounding whitespace, read an
optional sign, then either a case-insensitive `inf`/`infinity`/`nan`
keyword or a decimal literal.  Returns `none` where Python raises
`ValueError`. -/
def pyFloatOfString (s : String) : Option PyFloat :=
  let cs0 := s.toList.dropWhile Char.isWhitespace
  let cs1 := (cs0.reverse.dropWhile Char.isWhitespace).reverse
  match cs1 with
  | [] => none
  | _ =>
    let nr : Bool × List Char :=
      match cs1 with
      | '+' :: r => (false, r)
      | '-' :: r => (true, r)
      | r => (false, r)
    let low := nr.2.map Char.toLower
    if low = "inf".toList ∨ low = "infinity".toList then
      some (if nr.1 then .neginf else .inf)
    else if low = "nan".toList then
      some .nan
    else
      match parseDecimal nr.2 with
      | none => none
      | some q => some (.num (if nr.1 then -q else q))

/-- Python `v > r` for a parsed float against a finite literal: NaN
compares false, `inf` true, `-inf` false. -/
def pyGt : PyFloat → ℚ → Bool
  | .num q, r => q > r
  | .nan, _ => false
  | .inf, _ => true
  | .neginf, _ => false

/-- Python `v < r` for a parsed float against a finite literal: NaN
compares false, `inf` false, `-inf` true. -/
def pyLt : PyFloat → ℚ → Bool
  | .num q, r => q < r
  | .nan, _ => false
  | .inf, _ => false
  | .neginf, _ => true

/-! ## utils.get_percentile -/

/-- Embedding of `utils.get_percentile` (utils.py lines 19-28).  Returns
`none` where the Python raises `ValueError`: when the name does not start
with `percentile_`, when `float()` fails on the name with every occurrence
of `percentile_` removed (note: `str.replace` removes all occurrences,
not only the leading one), or when the parsed value compares greater than
100 or less than 0. -/
def get_percentile (stat : String) : Option PyFloat :=
  if pyStartsWith stat "percentile_" = false then none
  else
    match pyFloatOfString (pyReplace stat "percentile_" "") with
    | none => none
    | some q =>
      if pyGt q 100 then none
      else if pyLt q 0 then none
      else some q

/-! ## utils.check_stats and the CLI stats argument -/

/-- Embedding of `utils.DEFAULT_STATS` (utils.py line 13). -/
def DEFAULT_STATS : List String := ["count", "min", "max", "mean"]

/-- Embedding of `utils.VALID_STATS` (utils.py lines 14-15):
`DEFAULT_STATS` plus the nine further names.  `percentile_q` names are
handled as a special case in `check_stats`. -/
def VALID_STATS : List String :=
  DEFAULT_STATS ++
    ["sum", "std", "median", "majority", "minority", "unique", "range",
     "nodata", "nan"]

/-- The `stats` argument of `check_stats`: Python `None`, a string, or a
list of strings. -/
inductive StatsArg where
  | noneArg
  | strArg (s : String)
  | listArg (l : List String)
deriving DecidableEq

/-- Python truthiness of the `stats` argument: `None`, `""` and `[]` are
falsy. -/
def pyTruthy : StatsArg → Bool
  | .noneArg => false
  | .strArg s => !s.toList.isEmpty
  | .listArg l => !l.isEmpty

/-- Body of the validation loop of `check_stats` (utils.py lines 137-143)
for one requested name `x`: a name starting with `percentile_` must be
accepted by `get_percentile`, any other name must be a member of
`VALID_STATS`.  Error strings stand in for the Python `ValueError`
messages. -/
def validate_stat (x : String) : Except String Unit :=
  if pyStartsWith x "percentile_" then
    match get_percentile x with
    | some _ => .ok ()
    | none => .error ("invalid percentile " ++ x)
  else if x ∈ VALID_STATS then .ok ()
  else .error ("Stat " ++ x ++ " not valid")

/-- The validation loop of `check_stats` over the resolved name list;
stops at the first invalid name, like the Python `for` loop raising. -/
def validateStats : List String → Except String Unit
  | [] => .ok ()
  | x :: rest =>
    match validate_stat x with
    | .error e => .error e
    | .ok _ => validateStats rest

/-- Embedding of `utils.check_stats` (utils.py lines 125-150).  A falsy
`stats` argument resolves to `DEFAULT_STATS`, or to the empty list in
categorical mode; the bare strings `"*"` and `"ALL"` resolve to
`VALID_STATS`; any other string is whitespace-split; a list is taken as
is.  Every resolved name is validated, and the flag `run_count` records
whether the single counting pass is needed. -/
def check_stats (stats : StatsArg) (categorical : Bool) :
    Except String (List String × Bool) :=
  let resolved : List String :=
    if pyTruthy stats = false then
      if categorical = false then DEFAULT_STATS else []
    else
      match stats with
      | .strArg s => if s = "*" ∨ s = "ALL" then VALID_STATS else pySplitWs s
      | .listArg l => l
      | .noneArg => []
  match validateStats resolved with
  | .error e => .error e
  | .ok _ =>
    let run_count : Bool :=
      categorical || decide ("majority" ∈ resolved) ||
        decide ("minority" ∈ resolved) || decide ("unique" ∈ resolved)
    .ok (resolved, run_count)

/-- Embedding of the `--stats` handling of `cli.zonalstats` (cli.py lines
60-63): the option string is split on single spaces, and if any field
lower-cases to `all` the whole request is replaced by the bare string
`"ALL"` before calling the core. -/
def cli_stats_arg (stats : String) : StatsArg :=
  let parts := pySplitSpace stats
  if "all" ∈ parts.map pyLower then .strArg "ALL" else .listArg parts

/-- Modelled from the spec: the `zonal_stats` driver (the rasterstats
main module, which is not under src/) validates the requested statistics
through `check_stats` before any raster window is read (spec section 4.5
and section 7: configuration errors are reported synchronously before any
raster read).  Raster reading is abstracted as an oracle `readRaster`. -/
def zonal_stats_validate_first (stats : StatsArg) (categorical : Bool)
    (readRaster : Unit → List ℚ) :
    Except String (List String × Bool × List ℚ) :=
  match check_stats stats categorical with
  | .error e => .error e
  | .ok sr => .ok (sr.1, sr.2, readRaster ())

/-! ## Masked arrays and the coverage-weighted reducers

A numpy masked array is embedded as a list of pairs `(value, masked)`
with `masked = true` meaning the pixel is invalid (hidden).  The numpy
reductions used by `rs_count` / `rs_sum` / `rs_mean` are modelled below;
real arithmetic is exact over the rationals.  The conversion of a fully
masked reduction result to a Python float (which numpy reports as the
masked constant) is not modelled; the theorems about the mean therefore
assume at least one valid pixel. -/

/-- Masked-aware sum (`numpy.ma` reduction): masked entries are ignored. -/
def ma_sum (l : List (ℚ × Bool)) : ℚ :=
  ((l.filter fun p => !p.2).map fun p => p.1).sum

/-- Model of `masked.count()`: the number of unmasked entries. -/
def ma_count (l : List (ℚ × Bool)) : Nat :=
  (l.filter fun p => !p.2).length

/-- Model of `masked.mean()`: sum of unmasked values over their number. -/
def ma_mean (l : List (ℚ × Bool)) : ℚ :=
  ma_sum l / (ma_count l : ℚ)

/-- Model of `masked * cover_weights`: elementwise product of a masked
array with a plain weight array; the mask is preserved. -/
def ma_mul_weights (l : List (ℚ × Bool)) (w : List ℚ) : List (ℚ × Bool) :=
  (l.zip w).map fun pc => (pc.1.1 * pc.2, pc.1.2)

/-- Model of `~masked.mask * cover_weights`: the negated mask (1 on valid
pixels, 0 on masked ones) times the weights, a plain array. -/
def notmask_mul_weights (l : List (ℚ × Bool)) (w : List ℚ) : List ℚ :=
  (l.zip w).map fun pc => (if pc.1.2 then 0 else 1) * pc.2

/-- Embedding of `utils.rs_mean` (utils.py lines 199-206): with weights,
`np.sum(masked * cover_weights) / np.sum(~masked.mask * cover_weights)`;
without, `masked.mean()`. -/
def rs_mean (masked : List (ℚ × Bool)) : Option (List ℚ) → ℚ
  | some w => ma_sum (ma_mul_weights masked w) / (notmask_mul_weights masked w).sum
  | none => ma_mean masked

/-- Embedding of `utils.rs_count` (utils.py lines 209-214): with weights,
`np.sum(~masked.mask * cover_weights)`; without, `masked.count()`. -/
def rs_count (masked : List (ℚ × Bool)) : Option (List ℚ) → ℚ
  | some w => (notmask_mul_weights masked w).sum
  | none => (ma_count masked : ℚ)

/-- Embedding of `utils.rs_sum` (utils.py lines 217-222): with weights,
`np.sum(masked * cover_weights)`; without, `masked.sum()`. -/
def rs_sum (masked : List (ℚ × Bool)) : Option (List ℚ) → ℚ
  | some w => ma_sum (ma_mul_weights masked w)
  | none => ma_sum masked

/-! ## utils.remap_categories

Python dict semantics are embedded as association lists with pairwise
distinct keys; a dict comprehension is a fold of insertions where a later
duplicate key overwrites the earlier value in place. -/

/-- Python dict lookup on an association list (keys of an embedded dict
are pairwise distinct, so the first match is the match). -/
def dict_lookup {κ ν : Type} [DecidableEq κ] (d : List (κ × ν)) (k : κ) :
    Option ν :=
  (d.find? fun kv => decide (kv.1 = k)).map fun kv => kv.2

/-- The inner `lookup` helper of `remap_categories` (utils.py lines
154-160): dict lookup that returns the original key when it is absent. -/
def lookup_default {κ : Type} [DecidableEq κ] (m : List (κ × κ)) (k : κ) : κ :=
  match dict_lookup m k with
  | some v => v
  | none => k

/-- One insertion into an embedded Python dict: overwrite in place if the
key is present, else append. -/
def pyDictInsert {κ ν : Type} [DecidableEq κ] (d : List (κ × ν)) (k : κ)
    (v : ν) : List (κ × ν) :=
  if (d.find? fun kv => decide (kv.1 = k)).isSome then
    d.map fun kv => if kv.1 = k then (k, v) else kv
  else d ++ [(k, v)]

/-- The dict built by a Python dict comprehension over a pair sequence:
left-to-right insertion, later duplicates overwrite. -/
def pyDictOfPairs {κ ν : Type} [DecidableEq κ] (l : List (κ × ν)) :
    List (κ × ν) :=
  l.foldl (fun d kv => pyDictInsert d kv.1 kv.2) []

/-- Embedding of `utils.remap_categories` (utils.py lines 153-163): the
dict comprehension replacing every key of `stats` through
`lookup_default category_map` while keeping the values. -/
def remap_categories {κ ν : Type} [DecidableEq κ]
    (category_map : List (κ × κ)) (stats : List (κ × ν)) : List (κ × ν) :=
  pyDictOfPairs (stats.map fun kv => (lookup_default category_map kv.1, kv.2))

/-- Key type of a category-count dict: a raw pixel value or a remapped
string label. -/
inductive RKey where
  | raw (q : ℚ)
  | lab (s : String)
deriving DecidableEq

/-! ## utils.rebin_sum and utils.rasterize_pctcover_geom -/

/-- Bit width of `numpy.min_scalar_type(n)` for a nonnegative Python int:
the smallest unsigned width holding `n`, or `none` for the object dtype
(exact Python integers) once `n` exceeds the 64-bit range. -/
def min_scalar_type_u (n : Nat) : Option Nat :=
  if n < 2 ^ 8 then some 8
  else if n < 2 ^ 16 then some 16
  else if n < 2 ^ 32 then some 32
  else if n < 2 ^ 64 then some 64
  else none

/-- Modulus of the numpy sum accumulator for a dtype of the given bit
width: `2 ^ w` for an unsigned width, and 0 (meaning exact arithmetic,
since `x % 0 = x` on `Nat`) for the object dtype. -/
def npSumDtype : Option Nat → Nat
  | some w => 2 ^ w
  | none => 0

/-- Left fold `f 0 + ... + f (n-1)` reduced modulo `M` after every
addition, as an unsigned numpy accumulation of width `log2 M` does
(`M = 0` gives the exact sum). -/
def sumRangeMod (f : Nat → Nat) (M : Nat) : Nat → Nat
  | 0 => 0
  | n + 1 => (sumRangeMod f M n + f n) % M

/-- The exact sum `f 0 + ... + f (n-1)`. -/
def sumRange (f : Nat → Nat) : Nat → Nat
  | 0 => 0
  | n + 1 => sumRange f n + f n

/-- Embedding of `utils.rebin_sum` (utils.py lines 56-58) for an input
array `a` of shape `(aR, aC)` rebinned to shape `(R, C)` with accumulator
modulus `M`.  The Python reshapes `a` to
`(R, aR // R, C, aC // C)` and sums axes 3 then 1, which in row-major
layout makes entry `(i, j)` the sum of the `(aR // R) x (aC // C)` block
`a[i*(aR//R) + p, j*(aC//C) + q]`; the sums are carried out in the dtype
of modulus `M`. -/
def rebin_sum (a : Nat → Nat → Nat) (aR aC R C M : Nat) : Nat → Nat → Nat :=
  fun i j =>
    sumRangeMod
      (fun p =>
        sumRangeMod (fun q => a (i * (aR / R) + p) (j * (aC / C) + q)) M
          (aC / C))
      M (aR / R)

/-- The six-parameter affine transform (affine.Affine order
`a b c d e f`): pixel `(col, row)` maps to
`(a*col + b*row + c, d*col + e*row + f)`. -/
structure AffineT where
  a : ℚ
  b : ℚ
  c : ℚ
  d : ℚ
  e : ℚ
  f : ℚ
deriving DecidableEq

/-- Forward application of an affine transform to fractional pixel
coordinates `(col, row)`. -/
def affine_apply (t : AffineT) (col row : ℚ) : ℚ × ℚ :=
  (t.a * col + t.b * row + t.c, t.d * col + t.e * row + t.f)

/-- The oversampled transform built by `rasterize_pctcover_geom`
(utils.py lines 80-87): `Affine(a/scale, 0, c, 0, e/scale, f)` — the two
scale parameters divided by `scale`, the origin kept, and the shear
parameters written as the literal 0 (the parent shear is dropped, not
scaled). -/
def pctcover_affine (t : AffineT) (scale : Nat) : AffineT :=
  ⟨t.a / (scale : ℚ), 0, t.c, 0, t.e / (scale : ℚ), t.f⟩

/-- The oversampled shape built by `rasterize_pctcover_geom` (utils.py
line 89): `(shape[0]*scale, shape[1]*scale)`. -/
def pctcover_shape (R C scale : Nat) : Nat × Nat := (R * scale, C * scale)

/-- Definition following the words of the spec (section 4.1), for
comparison with `pctcover_affine`: the parent transform composed with a
`1/scale` scaling, which divides all four linear parameters — shear terms
included — by `scale` and keeps the origin. -/
def affine_scaled (t : AffineT) (scale : Nat) : AffineT :=
  ⟨t.a / (scale : ℚ), t.b / (scale : ℚ), t.c,
   t.d / (scale : ℚ), t.e / (scale : ℚ), t.f⟩

/-- All subpixel coordinates of one `s x s` block. -/
def blockCoords (s : Nat) : List (Nat × Nat) :=
  (List.range s).flatMap fun p => (List.range s).map fun q => (p, q)

/-- The number of covered subpixels of the oversampled binary
rasterization `rv` inside the `s x s` block of native pixel `(i, j)`. -/
def coveredCount (rv : Nat → Nat → Bool) (s i j : Nat) : Nat :=
  ((blockCoords s).filter fun pq => rv (i * s + pq.1) (j * s + pq.2)).length

/-- Embedding of `utils.rasterize_pctcover_geom` (utils.py lines 65-96)
as a function of the oversampled binary rasterization: `rv` stands for
the boolean array returned by the external
`rasterize_geom(geom, new_like, all_touched)` on the `scale`-times
oversampled grid (rasterio is an external collaborator, so its output is
an oracle).  The default `scale` is 10 when the argument is `None`; the
accumulator dtype is `min_scalar_type(scale**2)`; the rebinned block sums
are divided by `scale**2` (exact rational arithmetic stands in for the
float32 array). -/
def rasterize_pctcover_geom (rv : Nat → Nat → Bool) (R C : Nat)
    (scaleOpt : Option Nat) : Nat → Nat → ℚ :=
  let scale := scaleOpt.getD 10
  let M := npSumDtype (min_scalar_type_u (scale ^ 2))
  fun i j =>
    ((rebin_sum (fun p q => if rv p q then 1 else 0) (R * scale) (C * scale)
        R C M i j : ℚ)) / ((scale ^ 2 : Nat) : ℚ)

/-! ## utils.boxify_points -/

/-- The geometry variants handled by the repository (shapely geometry
types); points carry the coordinates `boxify_points` uses. -/
inductive GeomT where
  | point (x y : ℚ)
  | multipoint (pts : List (ℚ × ℚ))
  | linestring
  | multilinestring
  | polygon
  | multipolygon
deriving DecidableEq

/-- The shapely `geom.type` string of each variant. -/
def typeName : GeomT → String
  | .point _ _ => "Point"
  | .multipoint _ => "MultiPoint"
  | .linestring => "LineString"
  | .multilinestring => "MultiLineString"
  | .polygon => "Polygon"
  | .multipolygon => "MultiPolygon"

/-- Python substring test `needle in hay`. -/
def strContains (hay needle : String) : Bool :=
  (List.range (hay.toList.length + 1)).any fun i =>
    needle.toList.isPrefixOf (hay.toList.drop i)

/-- An axis-aligned rectangle `[minx, maxx] x [miny, maxy]`. -/
structure RectQ where
  minx : ℚ
  miny : ℚ
  maxx : ℚ
  maxy : ℚ
deriving DecidableEq

/-- Model of rasterio `DatasetReader.index(x, y)` (an external
collaborator of `boxify_points`): the `(row, col)` of the pixel whose
footprint contains the point, i.e. the floor of the inverse affine
transform.  Stated for shear-free transforms (`b = d = 0`), the case the
geometric theorems below assume. -/
def rast_index (t : AffineT) (x y : ℚ) : ℤ × ℤ :=
  (⌊(y - t.f) / t.e⌋, ⌊(x - t.c) / t.a⌋)

/-- Modelled from the spec: `rasterstats.io.window_bounds` (module
`io.py`, which is not under src/).  Per spec sections 4.1-4.2 the
geographic bounds of a pixel window `((r0, r1), (c0, c1))` are obtained
by applying the affine transform to the corner pixel coordinates: west
and south from `(c0, r1)`, east and north from `(c1, r0)`; returned as
`(left, bottom, right, top)`. -/
def window_bounds (rw cw : ℤ × ℤ) (t : AffineT) : ℚ × ℚ × ℚ × ℚ :=
  let ws := affine_apply t (cw.1 : ℚ) (rw.2 : ℚ)
  let en := affine_apply t (cw.2 : ℚ) (rw.1 : ℚ)
  (ws.1, ws.2, en.1, en.2)

/-- Model of shapely `box(minx, miny, maxx, maxy)`. -/
def shapely_box (minx miny maxx maxy : ℚ) : RectQ := ⟨minx, miny, maxx, maxy⟩

/-- Model of shapely `Polygon.buffer(d)` for an axis-aligned box and a
nonpositive distance `d` (the only use here): the inward offset
rectangle.  (For negative `d` no corner rounding arises.) -/
def rect_buffer (r : RectQ) (d : ℚ) : RectQ :=
  ⟨r.minx - d, r.miny - d, r.maxx + d, r.maxy + d⟩

/-- The loop body of `boxify_points` for one point: locate the enclosing
pixel, take the geographic bounds of its 1x1 window, make the box and
shrink it by the precomputed buffer distance. -/
def box_for_point (t : AffineT) (buff : ℚ) (p : ℚ × ℚ) : RectQ :=
  let rc := rast_index t p.1 p.2
  let wb := window_bounds (rc.1, rc.1 + 1) (rc.2, rc.2 + 1) t
  rect_buffer (shapely_box wb.1 wb.2.1 wb.2.2.1 wb.2.2.2) buff

/-- Embedding of `utils.boxify_points` (utils.py lines 175-195): raise
unless the substring `Point` occurs in the geometry type, compute
`buff = -0.01 * abs(min(affine.a, affine.e))` — note: the absolute value
of the signed minimum, not the minimum of the absolute values — and
return one shrunk pixel box per point. -/
def boxify_points (geom : GeomT) (t : AffineT) : Except String (List RectQ) :=
  if strContains (typeName geom) "Point" = false then
    .error "Points or multipoints only"
  else
    let buff := -(1 / 100 : ℚ) * |min t.a t.e|
    let pts : List (ℚ × ℚ) :=
      match geom with
      | .point x y => [(x, y)]
      | .multipoint ps => ps
      | _ => []
    .ok (pts.map (box_for_point t buff))

/-- Definition following the words of the spec (sections 4.3 and 9) and
of claim C7, for comparison with `boxify_points`: identical except that
the shrink distance is 1% of the smaller of the two absolute pixel
sizes, `min |a| |e|`. -/
def boxify_points_spec (geom : GeomT) (t : AffineT) :
    Except String (List RectQ) :=
  if strContains (typeName geom) "Point" = false then
    .error "Points or multipoints only"
  else
    let buff := -(1 / 100 : ℚ) * min |t.a| |t.e|
    let pts : List (ℚ × ℚ) :=
      match geom with
      | .point x y => [(x, y)]
      | .multipoint ps => ps
      | _ => []
    .ok (pts.map (box_for_point t buff))

/-! ## Helper lemmas on the validation loop -/

/-- None of the thirteen fixed statistic names starts with `percentile_`. -/
lemma valid_stats_no_percentile_name :
    ∀ y ∈ VALID_STATS, pyStartsWith y "percentile_" = false := by decide

/-- `validate_stat` accepts a name exactly when it is one of the fixed
names or a `percentile_`-prefixed name accepted by `get_percentile`. -/
lemma validate_stat_ok_iff (x : String) :
    validate_stat x = .ok () ↔
      x ∈ VALID_STATS ∨
        (pyStartsWith x "percentile_" = true ∧ get_percentile x ≠ none) := by
  unfold validate_stat
  cases hp : pyStartsWith x "percentile_" with
  | false =>
    simp only [hp, Bool.false_eq_true, if_false]
    by_cases hv : x ∈ VALID_STATS
    · simp [hv]
    · simp [hv, hp]
  | true =>
    simp only [hp, if_true]
    cases hg : get_percentile x with
    | none =>
      constructor
      · intro h; exact Except.noConfusion h
      · intro h
        rcases h with hv | ⟨_, hg'⟩
        · have := valid_stats_no_percentile_name x hv
          rw [hp] at this
          exact Bool.noConfusion this
        · exact absurd rfl hg'
    | some v => simp [hg, hp]

/-- The validation loop succeeds exactly when every name is valid. -/
lemma validateStats_ok_iff (l : List String) :
    validateStats l = .ok () ↔ ∀ x ∈ l, validate_stat x = .ok () := by
  induction l with
  | nil => simp [validateStats]
  | cons y ys ih =>
    simp only [validateStats]
    cases hv : validate_stat y with
    | error e =>
      constructor
      · intro h; exact Except.noConfusion h
      · intro h
        have hy := h y (List.mem_cons_self y ys)
        rw [hv] at hy
        exact Except.noConfusion hy
    | ok u =>
      cases u
      rw [ih]
      constructor
      · intro h x hx
        rcases List.mem_cons.mp hx with rfl | hx'
        · exact hv
        · exact h x hx'
      · intro h x hx
        exact h x (List.mem_cons_of_mem y hx)

/-- The validation loop fails whenever some member fails. -/
lemma validateStats_error_of_mem (l : List String) (x : String) (hx : x ∈ l)
    (e₀ : String) (hbad : validate_stat x = .error e₀) :
    ∃ e, validateStats l = .error e := by
  induction l with
  | nil => cases hx
  | cons y ys ih =>
    cases hv : validate_stat y with
    | error e => exact ⟨e, by simp [validateStats, hv]⟩
    | ok u =>
      cases u
      rcases List.mem_cons.mp hx with rfl | hx'
      · rw [hbad] at hv
        exact Except.noConfusion hv
      · obtain ⟨e, he⟩ := ih hx'
        exact ⟨e, by simp [validateStats, hv, he]⟩

/-- On a nonempty list argument, `check_stats` validates exactly that
list and returns it. -/
lemma check_stats_list_resolved (l : List String) (cat : Bool) (hl : l ≠ []) :
    check_stats (.listArg l) cat =
      match validateStats l with
      | .error e => .error e
      | .ok _ =>
        .ok (l, cat || decide ("majority" ∈ l) || decide ("minority" ∈ l) ||
          decide ("unique" ∈ l)) := by
  cases l with
  | nil => exact absurd rfl hl
  | cons y ys => rfl

/-! ## Claim C9 -/

/-- C9: when no statistics are requested (a falsy `stats` argument:
Python `None`, the empty string, or the empty list), `check_stats`
resolves the requested set to exactly `[count, min, max, mean]` when
categorical mode is off, and to the empty set when categorical mode is
on. -/
theorem c9_default_stats (arg : StatsArg) (h : pyTruthy arg = false) :
    check_stats arg false = .ok (DEFAULT_STATS, false) ∧
    check_stats arg true = .ok ([], true) := by
  cases arg with
  | noneArg => exact ⟨by decide, by decide⟩
  | strArg s =>
    obtain ⟨data⟩ := s
    cases data with
    | nil => exact ⟨by decide, by decide⟩
    | cons c cs => simp [pyTruthy, String.toList] at h
  | listArg l =>
    cases l with
    | nil => exact ⟨by decide, by decide⟩
    | cons x xs => simp [pyTruthy] at h

/-- Witness for C9 at the absent (`None`) stats argument. -/
theorem c9_default_stats_witness :
    check_stats .noneArg false = .ok (DEFAULT_STATS, false) ∧
    check_stats .noneArg true = .ok ([], true) :=
  c9_default_stats .noneArg rfl

/-! ## Claim C5 -/

/-- C5 (amended): the bare strings `"*"` and `"ALL"` expand to exactly
`VALID_STATS`, the thirteen-name fixed vocabulary — which does not
contain `no_overlap` — independently of the categorical flag (and the
counting pass is enabled since `majority` is among them). -/
theorem c5_star_expansion (categorical : Bool) :
    check_stats (.strArg "*") categorical = .ok (VALID_STATS, true) ∧
    check_stats (.strArg "ALL") categorical = .ok (VALID_STATS, true) := by
  cases categorical
  · exact ⟨by decide, by decide⟩
  · exact ⟨by decide, by decide⟩

/-- Counterexample for C5 as stated: the `"*"` expansion is
`VALID_STATS`, and `no_overlap` is not among the expanded names, contrary
to the claim that the expansion includes `no_overlap`. -/
theorem c5_counterexample :
    check_stats (.strArg "*") false = .ok (VALID_STATS, true) ∧
    "no_overlap" ∉ VALID_STATS := by decide

/-! ## Claim C3 -/

/-- C3 (amended): a requested list of names is accepted by `check_stats`
exactly when every name is in the thirteen-name vocabulary
`VALID_STATS` (which does not contain `no_overlap`) or is a
`percentile_`-prefixed name accepted by `get_percentile`; any other name
raises `ValueError`.  Validation happens before any raster read: when it
fails, the result of the spec-modelled driver does not depend on the
raster-reading oracle. -/
theorem c3_stats_vocabulary :
    (∀ (l : List String) (cat : Bool),
      (∃ r, check_stats (.listArg l) cat = .ok r) ↔
        ∀ x ∈ l, x ∈ VALID_STATS ∨
          (pyStartsWith x "percentile_" = true ∧ get_percentile x ≠ none)) ∧
    (∀ (stats : StatsArg) (cat : Bool) (e : String)
        (r₁ r₂ : Unit → List ℚ),
      check_stats stats cat = .error e →
      zonal_stats_validate_first stats cat r₁ =
        zonal_stats_validate_first stats cat r₂) := by
  constructor
  · intro l cat
    by_cases hl : l = []
    · subst hl
      constructor
      · intro _ x hx
        exact absurd hx (List.not_mem_nil x)
      · intro _
        cases cat
        · exact ⟨(DEFAULT_STATS, false), by decide⟩
        · exact ⟨([], true), by decide⟩
    · rw [check_stats_list_resolved l cat hl]
      constructor
      · rintro ⟨r, hr⟩ x hx
        rw [← validate_stat_ok_iff]
        cases hv : validateStats l with
        | error e =>
          rw [hv] at hr
          exact Except.noConfusion hr
        | ok u =>
          cases u
          exact (validateStats_ok_iff l).mp hv x hx
      · intro h
        have hok : validateStats l = .ok () :=
          (validateStats_ok_iff l).mpr
            (fun x hx => (validate_stat_ok_iff x).mpr (h x hx))
        rw [hok]
        exact ⟨_, rfl⟩
  · intro stats cat e r₁ r₂ h
    simp [zonal_stats_validate_first, h]

/-- Witness for C3: the list `[count, percentile_25]` is accepted, and
the fully invalid name makes the driver ignore the raster oracle. -/
theorem c3_stats_vocabulary_witness :
    (∃ r, check_stats (.listArg ["count", "percentile_25"]) false = .ok r) ∧
    zonal_stats_validate_first (.listArg ["bogus"]) false (fun _ => [0]) =
      zonal_stats_validate_first (.listArg ["bogus"]) false (fun _ => [1]) :=
  ⟨(c3_stats_vocabulary.1 ["count", "percentile_25"] false).mpr (by decide),
   c3_stats_vocabulary.2 (.listArg ["bogus"]) false "Stat bogus not valid"
     (fun _ => [0]) (fun _ => [1]) (by decide)⟩

/-- Counterexample for C3 as stated: the name `no_overlap`, which the
claim says is accepted, raises `ValueError` — it is not in
`VALID_STATS`. -/
theorem c3_counterexample :
    check_stats (.listArg ["no_overlap"]) false =
      .error "Stat no_overlap not valid" ∧
    "no_overlap" ∉ VALID_STATS := by decide

/-! ## Claim C10 -/

/-- C10 (amended): the `'*'`/`'ALL'` expansion is recognized only for the
bare string argument — any requested list containing `ALL` or `*` as an
element raises `ValueError` — and the command-line wrapper compensates by
replacing the space-split (single space characters, not general
whitespace) option list with the bare string `"ALL"` whenever some field
lower-cases to `all`, passing the split list through unchanged
otherwise. -/
theorem c10_all_star_rejected_in_lists :
    (∀ (l : List String) (cat : Bool), ("ALL" ∈ l ∨ "*" ∈ l) →
      ∃ e, check_stats (.listArg l) cat = .error e) ∧
    (∀ s : String, "all" ∈ (pySplitSpace s).map pyLower →
      cli_stats_arg s = .strArg "ALL") ∧
    (∀ s : String, "all" ∉ (pySplitSpace s).map pyLower →
      cli_stats_arg s = .listArg (pySplitSpace s)) := by
  refine ⟨?_, ?_, ?_⟩
  · intro l cat h
    have hl : l ≠ [] := by
      rcases h with h | h
      · exact List.ne_nil_of_mem h
      · exact List.ne_nil_of_mem h
    rw [check_stats_list_resolved l cat hl]
    have herr : ∃ e, validateStats l = .error e := by
      rcases h with h | h
      · exact validateStats_error_of_mem l "ALL" h "Stat ALL not valid"
          (by decide)
      · exact validateStats_error_of_mem l "*" h "Stat * not valid"
          (by decide)
    obtain ⟨e, he⟩ := herr
    rw [he]
    exact ⟨e, rfl⟩
  · intro s h
    simp [cli_stats_arg, h]
  · intro s h
    simp [cli_stats_arg, h]

/-- Witness for C10: a list containing `ALL` is rejected by the core,
while the CLI turns the option string `count all` into the bare string
request. -/
theorem c10_all_star_rejected_in_lists_witness :
    (∃ e, check_stats (.listArg ["count", "ALL"]) false = .error e) ∧
    cli_stats_arg "count all" = .strArg "ALL" :=
  ⟨c10_all_star_rejected_in_lists.1 ["count", "ALL"] false (Or.inl (by decide)),
   c10_all_star_rejected_in_lists.2.1 "count all" (by decide)⟩

/-- Counterexample for C10 as stated: the claim says the wrapper replaces
a whitespace-split list containing a case variant of `all`, but the code
splits on single spaces only — on the option string `count<TAB>all` the
whitespace-split fields do contain `all`, yet the wrapper passes through
the unsplit list and does not produce the bare `"ALL"` request. -/
theorem c10_counterexample :
    "all" ∈ (pySplitWs "count\tall").map pyLower ∧
    cli_stats_arg "count\tall" = .listArg ["count\tall"] ∧
    cli_stats_arg "count\tall" ≠ .strArg "ALL" := by decide

/-! ## Claim C2 -/

/-- C2 (amended): `get_percentile` accepts `percentile_<value>` names
exactly by removing every occurrence of the substring `percentile_` from
the whole name and requiring the remainder to parse as a Python float
that is neither greater than 100 nor less than 0.  Hence every accepted
finite value lies in [0, 100] with both endpoints accepted, names not
starting with `percentile_` and out-of-range values are rejected, NaN is
accepted (both comparisons are false on NaN), and rejection happens
before any raster is read (the spec-modelled driver ignores the raster
oracle when validation fails). -/
theorem c2_percentile_validation :
    (∀ (s : String) (q : ℚ), get_percentile s = some (.num q) →
      0 ≤ q ∧ q ≤ 100) ∧
    (∀ s : String, pyStartsWith s "percentile_" = false →
      get_percentile s = none) ∧
    get_percentile "percentile_0" = some (.num 0) ∧
    get_percentile "percentile_100" = some (.num 100) ∧
    get_percentile "percentile_101" = none ∧
    get_percentile "percentile_nan" = some .nan ∧
    (∀ (stats : StatsArg) (cat : Bool) (e : String)
        (r₁ r₂ : Unit → List ℚ),
      check_stats stats cat = .error e →
      zonal_stats_validate_first stats cat r₁ =
        zonal_stats_validate_first stats cat r₂) := by
  refine ⟨?_, ?_, by decide, by decide, by decide, by decide, ?_⟩
  · intro s q h
    unfold get_percentile at h
    by_cases hp : pyStartsWith s "percentile_" = false
    · rw [if_pos hp] at h
      exact Option.noConfusion h
    · rw [if_neg hp] at h
      cases hf : pyFloatOfString (pyReplace s "percentile_" "") with
      | none =>
        rw [hf] at h
        exact Option.noConfusion h
      | some v =>
        rw [hf] at h
        dsimp only at h
        by_cases hg : pyGt v 100 = true
        · rw [if_pos hg] at h
          exact Option.noConfusion h
        · rw [if_neg hg] at h
          by_cases hl : pyLt v 0 = true
          · rw [if_pos hl] at h
            exact Option.noConfusion h
          · rw [if_neg hl] at h
            have hv : v = .num q := Option.some.inj h
            subst hv
            simp only [pyGt, decide_eq_true_eq] at hg
            simp only [pyLt, decide_eq_true_eq] at hl
            exact ⟨le_of_not_lt hl, le_of_not_lt hg⟩
  · intro s hp
    simp [get_percentile, hp]
  · intro stats cat e r₁ r₂ h
    simp [zonal_stats_validate_first, h]

/-- Witness for C2: a plain in-range percentile name is accepted and its
value bounded by the theorem. -/
theorem c2_percentile_validation_witness :
    get_percentile "percentile_25" = some (.num 25) ∧
    (0 ≤ (25 : ℚ) ∧ (25 : ℚ) ≤ 100) :=
  ⟨by decide, c2_percentile_validation.1 "percentile_25" 25 (by decide)⟩

/-- Counterexample for C2 as stated: in the name
`percentile_percentile_50` the `<value>` part `percentile_50` does not
parse as a number (Python `float` raises on it), so the claim requires a
`ValueError`; but `str.replace` removes both occurrences of
`percentile_`, so the code accepts the name with value 50. -/
theorem c2_counterexample :
    get_percentile "percentile_percentile_50" = some (.num 50) ∧
    pyFloatOfString "percentile_50" = none := by decide

/-! ## Claim C4 -/

/-- Summing the negated mask times the weights equals summing the weights
over the valid entries. -/
lemma zip_indicator_sum (z : List ((ℚ × Bool) × ℚ)) :
    (z.map fun pc => (if pc.1.2 then 0 else 1) * pc.2).sum =
      ((z.filter fun pc => !pc.1.2).map fun pc => pc.2).sum := by
  induction z with
  | nil => simp
  | cons p z ih =>
    simp only [List.map_cons, List.sum_cons, List.filter_cons]
    rw [ih]
    cases hm : p.1.2
    · simp [hm]
    · simp [hm]

/-- The masked product list filtered to its valid entries is the valid
entries' products. -/
lemma zip_product_filter (z : List ((ℚ × Bool) × ℚ)) :
    ((z.map fun pc => (pc.1.1 * pc.2, pc.1.2)).filter fun p => !p.2).map
        (fun p => p.1) =
      (z.filter fun pc => !pc.1.2).map fun pc => pc.1.1 * pc.2 := by
  induction z with
  | nil => simp
  | cons p z ih =>
    cases hm : p.1.2 <;> simp [List.filter_cons, hm, ih]

/-- Zipping a list with an all-ones weight list of its own length pairs
every element with 1. -/
lemma zip_replicate_one (m : List (ℚ × Bool)) :
    m.zip (List.replicate m.length (1 : ℚ)) = m.map fun x => (x, (1 : ℚ)) := by
  induction m with
  | nil => rfl
  | cons p m ih => simp [List.replicate_succ, ih]

/-- Multiplying a masked array elementwise by all-ones weights leaves it
unchanged. -/
lemma ma_mul_weights_ones (m : List (ℚ × Bool)) :
    ma_mul_weights m (List.replicate m.length 1) = m := by
  unfold ma_mul_weights
  rw [zip_replicate_one m, List.map_map]
  have hc : ((fun pc : (ℚ × Bool) × ℚ => (pc.1.1 * pc.2, pc.1.2)) ∘
      fun x => (x, (1 : ℚ))) = id := by
    funext x
    simp
  rw [hc, List.map_id]

/-- The sum of the valid-pixel indicator equals the valid count. -/
lemma indicator_sum_count (m : List (ℚ × Bool)) :
    (m.map fun p => (if p.2 then (0 : ℚ) else 1)).sum = (ma_count m : ℚ) := by
  induction m with
  | nil => simp [ma_count]
  | cons p m ih =>
    cases hm : p.2
    · simp only [List.map_cons, List.sum_cons, hm]
      rw [ih]
      simp only [ma_count, List.filter_cons, hm, Bool.not_false, if_true,
        List.length_cons]
      push_cast
      ring
    · simp [ma_count, List.filter_cons, hm, ih]

/-- C4: with a coverage-weight array of matching shape, `rs_count` is the
sum of the weights over valid (unmasked) pixels, `rs_sum` is the sum of
value times weight over valid pixels, and `rs_mean` is their quotient;
without weights they are the unweighted valid-pixel count, sum and
arithmetic mean; and all-ones (scale-1 binary) weights give the weighted
mean equal to the unweighted mean.  (At least one valid pixel is assumed:
on an all-masked array numpy's reductions return the masked constant
rather than a number, which is outside this model.) -/
theorem c4_rs_count_sum_mean (masked : List (ℚ × Bool)) (w : List ℚ)
    (hlen : masked.length = w.length) (hpos : 0 < ma_count masked) :
    rs_count masked (some w) =
      (((masked.zip w).filter fun pc => !pc.1.2).map fun pc => pc.2).sum ∧
    rs_sum masked (some w) =
      (((masked.zip w).filter fun pc => !pc.1.2).map
        fun pc => pc.1.1 * pc.2).sum ∧
    rs_mean masked (some w) =
      rs_sum masked (some w) / rs_count masked (some w) ∧
    rs_count masked none = ((masked.filter fun p => !p.2).length : ℚ) ∧
    rs_sum masked none = ((masked.filter fun p => !p.2).map fun p => p.1).sum ∧
    rs_mean masked none = rs_sum masked none / rs_count masked none ∧
    (w = List.replicate masked.length 1 →
      rs_mean masked (some w) = rs_mean masked none) := by
  refine ⟨?_, ?_, rfl, rfl, rfl, rfl, ?_⟩
  · exact zip_indicator_sum (masked.zip w)
  · show ma_sum (ma_mul_weights masked w) = _
    unfold ma_sum ma_mul_weights
    rw [zip_product_filter (masked.zip w)]
  · intro hw
    subst hw
    have hnum : ma_sum (ma_mul_weights masked
        (List.replicate masked.length 1)) = ma_sum masked := by
      rw [ma_mul_weights_ones]
    have hden : (notmask_mul_weights masked
        (List.replicate masked.length 1)).sum = (ma_count masked : ℚ) := by
      unfold notmask_mul_weights
      rw [zip_replicate_one masked, List.map_map]
      have : ((fun pc : (ℚ × Bool) × ℚ =>
          (if pc.1.2 then (0 : ℚ) else 1) * pc.2) ∘ fun x => (x, (1 : ℚ))) =
          fun p : ℚ × Bool => (if p.2 then (0 : ℚ) else 1) := by
        funext x
        simp
      rw [this, indicator_sum_count]
    show ma_sum (ma_mul_weights masked _) /
        (notmask_mul_weights masked _).sum = ma_mean masked
    rw [hnum, hden]
    rfl

/-- Witness for C4 on a concrete three-pixel array with one masked
pixel. -/
theorem c4_rs_count_sum_mean_witness :
    rs_count [((3 : ℚ), false), (7, true), (5, false)] (some [2, 1, 3]) =
      ((([((3 : ℚ), false), (7, true), (5, false)].zip
        [(2 : ℚ), 1, 3]).filter fun pc => !pc.1.2).map fun pc => pc.2).sum ∧
    rs_sum [((3 : ℚ), false), (7, true), (5, false)] (some [2, 1, 3]) =
      ((([((3 : ℚ), false), (7, true), (5, false)].zip
        [(2 : ℚ), 1, 3]).filter fun pc => !pc.1.2).map
          fun pc => pc.1.1 * pc.2).sum ∧
    rs_mean [((3 : ℚ), false), (7, true), (5, false)] (some [2, 1, 3]) =
      rs_sum [((3 : ℚ), false), (7, true), (5, false)] (some [2, 1, 3]) /
        rs_count [((3 : ℚ), false), (7, true), (5, false)] (some [2, 1, 3]) ∧
    rs_count [((3 : ℚ), false), (7, true), (5, false)] none =
      (([((3 : ℚ), false), (7, true), (5, false)].filter
        fun p => !p.2).length : ℚ) ∧
    rs_sum [((3 : ℚ), false), (7, true), (5, false)] none =
      (([((3 : ℚ), false), (7, true), (5, false)].filter
        fun p => !p.2).map fun p => p.1).sum ∧
    rs_mean [((3 : ℚ), false), (7, true), (5, false)] none =
      rs_sum [((3 : ℚ), false), (7, true), (5, false)] none /
        rs_count [((3 : ℚ), false), (7, true), (5, false)] none ∧
    ([(2 : ℚ), 1, 3] =
        List.replicate [((3 : ℚ), false), (7, true), (5, false)].length 1 →
      rs_mean [((3 : ℚ), false), (7, true), (5, false)] (some [2, 1, 3]) =
        rs_mean [((3 : ℚ), false), (7, true), (5, false)] none) :=
  c4_rs_count_sum_mean [((3 : ℚ), false), (7, true), (5, false)] [2, 1, 3]
    (by decide) (by decide)

/-! ## Claim C6 -/

/-- `find?` misses a key that no entry carries. -/
lemma find_key_none {κ ν : Type} [DecidableEq κ] (d : List (κ × ν)) (k : κ)
    (h : ∀ kv ∈ d, kv.1 ≠ k) :
    (d.find? fun kv => decide (kv.1 = k)) = none := by
  induction d with
  | nil => rfl
  | cons y d ih =>
    rw [List.find?_cons]
    have hy : decide (y.1 = k) = false :=
      decide_eq_false (h y (List.mem_cons_self y d))
    rw [hy]
    exact ih fun kv hkv => h kv (List.mem_cons_of_mem y hkv)

/-- Inserting a fresh key appends it. -/
lemma pyDictInsert_fresh {κ ν : Type} [DecidableEq κ] (d : List (κ × ν))
    (k : κ) (v : ν) (h : ∀ kv ∈ d, kv.1 ≠ k) :
    pyDictInsert d k v = d ++ [(k, v)] := by
  unfold pyDictInsert
  rw [find_key_none d k h]
  rfl

/-- Building a Python dict from pairs with pairwise distinct keys keeps
the pair list unchanged (generalized over the fold accumulator). -/
lemma pyDictOfPairs_fold_nodup {K V : Type} [DecidableEq K] :
    ∀ (l acc : List (K × V)),
      ((acc ++ l).map fun kv => kv.1).Nodup →
      l.foldl (fun d kv => pyDictInsert d kv.1 kv.2) acc = acc ++ l := by
  intro l
  induction l with
  | nil =>
    intro acc _
    simp
  | cons y l ih =>
    intro acc hnd
    have hdisj : List.Disjoint (acc.map fun kv => kv.1)
        ((y :: l).map fun kv => kv.1) := by
      have hnd2 := hnd
      rw [List.map_append] at hnd2
      exact List.disjoint_of_nodup_append hnd2
    have hfresh : ∀ kv ∈ acc, kv.1 ≠ y.1 := by
      intro kv hkv heq
      have hmem1 : kv.1 ∈ acc.map fun kv => kv.1 :=
        List.mem_map_of_mem _ hkv
      have hmem2 : y.1 ∈ (y :: l).map fun kv => kv.1 :=
        List.mem_map_of_mem _ (List.mem_cons_self y l)
      rw [heq] at hmem1
      exact hdisj hmem1 hmem2
    rw [List.foldl_cons, pyDictInsert_fresh acc y.1 y.2 hfresh]
    have hy : acc ++ [(y.1, y.2)] = acc ++ [y] := rfl
    rw [hy]
    have hnd3 : (((acc ++ [y]) ++ l).map fun kv => kv.1).Nodup := by
      rw [List.append_assoc, List.singleton_append]
      exact hnd
    rw [ih (acc ++ [y]) hnd3, List.append_assoc, List.singleton_append]

/-- Building a Python dict from pairs with pairwise distinct keys is the
identity. -/
lemma pyDictOfPairs_nodup {K V : Type} [DecidableEq K]
    (l : List (K × V)) (h : (l.map fun kv => kv.1).Nodup) :
    pyDictOfPairs l = l := by
  unfold pyDictOfPairs
  have := pyDictOfPairs_fold_nodup l [] (by simpa using h)
  simpa using this

/-- C6 (amended): `remap_categories` is a pure relabeling whenever the
relabeling function `lookup_default category_map` is injective on the
keys of the count mapping (no two keys collapse to the same label and no
produced label collides with a retained key): every key present in the
category map is replaced by its mapped label, every other key is left
unchanged, and the count values are preserved entry by entry. -/
theorem c6_remap_pure_relabeling {K V : Type} [DecidableEq K]
    (category_map : List (K × K)) (stats : List (K × V))
    (hkeys : (stats.map fun kv => kv.1).Nodup)
    (hinj : ∀ k₁ ∈ stats.map fun kv => kv.1,
      ∀ k₂ ∈ stats.map fun kv => kv.1,
      lookup_default category_map k₁ = lookup_default category_map k₂ →
        k₁ = k₂) :
    remap_categories category_map stats =
      stats.map (fun kv => (lookup_default category_map kv.1, kv.2)) ∧
    (remap_categories category_map stats).map (fun kv => kv.1) =
      stats.map (fun kv => lookup_default category_map kv.1) ∧
    (remap_categories category_map stats).map (fun kv => kv.2) =
      stats.map fun kv => kv.2 := by
  have hmapped : ((stats.map fun kv =>
      (lookup_default category_map kv.1, kv.2)).map fun kv => kv.1).Nodup := by
    rw [List.map_map]
    have hccomp : ((fun kv : K × V => kv.1) ∘ fun kv : K × V =>
        (lookup_default category_map kv.1, kv.2)) =
        ((fun k => lookup_default category_map k) ∘ fun kv : K × V => kv.1) := by
      funext kv
      rfl
    rw [hccomp, ← List.map_map]
    refine List.Nodup.map_on ?_ hkeys
    intro k₁ h₁ k₂ h₂ heq
    exact hinj k₁ h₁ k₂ h₂ heq
  have hmain : remap_categories category_map stats =
      stats.map fun kv => (lookup_default category_map kv.1, kv.2) := by
    unfold remap_categories
    exact pyDictOfPairs_nodup _ hmapped
  refine ⟨hmain, ?_, ?_⟩
  · rw [hmain, List.map_map]
    rfl
  · rw [hmain, List.map_map]
    rfl

/-- Witness for C6 at the example of the claim: remapping the count dict
of raw value 5.0 through the category map sending 5.0 to `cat5` yields
the same count under key `cat5` and drops key 5.0. -/
theorem c6_remap_pure_relabeling_witness :
    remap_categories [(RKey.raw 5, RKey.lab "cat5")] [(RKey.raw 5, (1 : ℚ))] =
      [(RKey.raw 5, (1 : ℚ))].map
        (fun kv => (lookup_default [(RKey.raw 5, RKey.lab "cat5")] kv.1,
          kv.2)) ∧
    dict_lookup (remap_categories [(RKey.raw 5, RKey.lab "cat5")]
      [(RKey.raw 5, (1 : ℚ))]) (RKey.lab "cat5") = some 1 ∧
    dict_lookup (remap_categories [(RKey.raw 5, RKey.lab "cat5")]
      [(RKey.raw 5, (1 : ℚ))]) (RKey.raw 5) = none :=
  ⟨(c6_remap_pure_relabeling [(RKey.raw 5, RKey.lab "cat5")]
      [(RKey.raw 5, (1 : ℚ))] (by decide) (by decide)).1,
    by decide, by decide⟩

/-- Counterexample for C6 as stated: under the non-injective category map
sending both 5.0 and 6.0 to the label `cat`, the count 1 recorded under
key 5.0 is lost (the dict comprehension keeps only the later entry), so
not every count value is preserved. -/
theorem c6_counterexample :
    remap_categories [(RKey.raw 5, RKey.lab "cat"), (RKey.raw 6, RKey.lab "cat")]
        [(RKey.raw 5, (1 : ℚ)), (RKey.raw 6, 2)] = [(RKey.lab "cat", 2)] ∧
    ((remap_categories [(RKey.raw 5, RKey.lab "cat"),
        (RKey.raw 6, RKey.lab "cat")]
        [(RKey.raw 5, (1 : ℚ)), (RKey.raw 6, 2)]).map fun kv => kv.2) = [2] ∧
    (([(RKey.raw 5, (1 : ℚ)), (RKey.raw 6, 2)].map fun kv => kv.2) = [1, 2]) := by
  decide

/-! ## Claim C1 -/

/-- `sumRange` as a list sum over `List.range`. -/
lemma sumRange_eq_range_sum (f : Nat → Nat) (n : Nat) :
    sumRange f n = ((List.range n).map f).sum := by
  induction n with
  | zero => rfl
  | succ n ih =>
    rw [List.range_succ, List.map_append, List.sum_append]
    simp [sumRange, ih]

/-- A sum of indicator values counts the filtered range. -/
lemma sumRange_indicator_count (g : Nat → Bool) (n : Nat) :
    sumRange (fun q => if g q then 1 else 0) n =
      ((List.range n).filter g).length := by
  induction n with
  | zero => rfl
  | succ n ih =>
    rw [List.range_succ, List.filter_append, List.length_append]
    cases hg : g n <;> simp [sumRange, ih, hg]

/-- Termwise bound for `sumRange`. -/
lemma sumRange_le (f : Nat → Nat) (c n : Nat) (h : ∀ k, f k ≤ c) :
    sumRange f n ≤ c * n := by
  induction n with
  | zero => exact Nat.zero_le _
  | succ n ih =>
    calc sumRange f n + f n ≤ c * n + c := Nat.add_le_add ih (h n)
    _ = c * (n + 1) := by ring

/-- `sumRange` is monotone in the length. -/
lemma sumRange_mono (f : Nat → Nat) {m n : Nat} (h : m ≤ n) :
    sumRange f m ≤ sumRange f n := by
  induction n with
  | zero =>
    rw [Nat.le_zero.mp h]
  | succ n ih =>
    rcases Nat.lt_or_ge m (n + 1) with hm | hm
    · exact le_trans (ih (Nat.lt_succ_iff.mp hm)) (Nat.le_add_right _ _)
    · rw [Nat.le_antisymm h hm]

/-- A modular accumulation whose exact value stays below the modulus (or
whose modulus is 0, i.e. exact integers) computes the exact sum. -/
lemma sumRangeMod_eq_sumRange (f : Nat → Nat) (M n : Nat)
    (h : M = 0 ∨ sumRange f n < M) :
    sumRangeMod f M n = sumRange f n := by
  induction n with
  | zero => rfl
  | succ n ih =>
    have hn : M = 0 ∨ sumRange f n < M := by
      rcases h with h | h
      · exact Or.inl h
      · exact Or.inr (lt_of_le_of_lt (sumRange_mono f (Nat.le_succ n)) h)
    show (sumRangeMod f M n + f n) % M = sumRange f n + f n
    rw [ih hn]
    rcases h with h | h
    · rw [h, Nat.mod_zero]
    · exact Nat.mod_eq_of_lt h

/-- Length of a filtered mapped list. -/
lemma length_filter_map_eq {α β : Type} (h : α → β) (F : β → Bool)
    (l : List α) :
    ((l.map h).filter F).length = (l.filter fun a => F (h a)).length := by
  induction l with
  | nil => rfl
  | cons a l ih =>
    cases hF : F (h a) <;>
      simp [List.filter_cons, hF, ih]

/-- Length of a filtered flatMap. -/
lemma length_filter_flatMap {α β : Type} (l : List α) (g : α → List β)
    (F : β → Bool) :
    ((l.flatMap g).filter F).length =
      (l.map fun a => ((g a).filter F).length).sum := by
  induction l with
  | nil => rfl
  | cons a l ih =>
    rw [List.flatMap_cons, List.filter_append, List.length_append, ih]
    rfl

/-- The double indicator sum over an `s x s` block counts the covered
subpixels. -/
lemma double_sum_coveredCount (rv : Nat → Nat → Bool) (s i j : Nat) :
    sumRange (fun p =>
      sumRange (fun q => if rv (i * s + p) (j * s + q) then 1 else 0) s) s =
      coveredCount rv s i j := by
  unfold coveredCount blockCoords
  rw [length_filter_flatMap]
  rw [sumRange_eq_range_sum]
  congr 1
  refine List.map_congr_left ?_
  intro p _
  rw [length_filter_map_eq, ← sumRange_indicator_count]

/-- The covered count of a block is at most the subpixel count. -/
lemma coveredCount_le_sq (rv : Nat → Nat → Bool) (s i j : Nat) :
    coveredCount rv s i j ≤ s ^ 2 := by
  rw [← double_sum_coveredCount]
  have houter : ∀ p, sumRange
      (fun q => if rv (i * s + p) (j * s + q) then 1 else 0) s ≤ s := by
    intro p
    have := sumRange_le (fun q => if rv (i * s + p) (j * s + q) then 1 else 0)
      1 s (fun k => by dsimp only; split <;> omega)
    omega
  have := sumRange_le (fun p => sumRange
      (fun q => if rv (i * s + p) (j * s + q) then 1 else 0) s) s s houter
  calc sumRange _ s ≤ s * s := this
  _ = s ^ 2 := by ring

/-- The unsigned width chosen by `min_scalar_type` holds its argument. -/
lemma min_scalar_type_u_holds (n w : Nat)
    (h : min_scalar_type_u n = some w) : n < 2 ^ w := by
  unfold min_scalar_type_u at h
  split at h
  · cases h; assumption
  · split at h
    · cases h; assumption
    · split at h
      · cases h; assumption
      · split at h
        · cases h; assumption
        · cases h

/-- For the accumulator dtype chosen from `scale^2`, the rebinned block
sum of a 0/1 array is exact: no modular wraparound occurs. -/
lemma rebin_pctcover_exact (rv : Nat → Nat → Bool) (R C s : Nat)
    (hs : 1 ≤ s) (hR : 0 < R) (hC : 0 < C) (i j : Nat) :
    rebin_sum (fun p q => if rv p q then 1 else 0) (R * s) (C * s) R C
      (npSumDtype (min_scalar_type_u (s ^ 2))) i j = coveredCount rv s i j := by
  have hRs : R * s / R = s := Nat.mul_div_cancel_left s hR
  have hCs : C * s / C = s := Nat.mul_div_cancel_left s hC
  unfold rebin_sum
  rw [hRs, hCs]
  have hinner_le : ∀ p, sumRange
      (fun q => if rv (i * s + p) (j * s + q) then 1 else 0) s ≤ s := by
    intro p
    have := sumRange_le (fun q => if rv (i * s + p) (j * s + q) then 1 else 0)
      1 s (fun k => by dsimp only; split <;> omega)
    omega
  have hM : npSumDtype (min_scalar_type_u (s ^ 2)) = 0 ∨
      s ^ 2 < npSumDtype (min_scalar_type_u (s ^ 2)) := by
    cases hmt : min_scalar_type_u (s ^ 2) with
    | none => exact Or.inl rfl
    | some w => exact Or.inr (min_scalar_type_u_holds (s ^ 2) w hmt)
  have hinner_eq : ∀ p, sumRangeMod
      (fun q => if rv (i * s + p) (j * s + q) then 1 else 0)
      (npSumDtype (min_scalar_type_u (s ^ 2))) s =
      sumRange (fun q => if rv (i * s + p) (j * s + q) then 1 else 0) s := by
    intro p
    refine sumRangeMod_eq_sumRange _ _ _ ?_
    rcases hM with h | h
    · exact Or.inl h
    · refine Or.inr (lt_of_le_of_lt ?_ h)
      calc sumRange _ s ≤ s := hinner_le p
      _ ≤ s ^ 2 := by nlinarith
  have hfun : (fun p => sumRangeMod
      (fun q => if rv (i * s + p) (j * s + q) then 1 else 0)
      (npSumDtype (min_scalar_type_u (s ^ 2))) s) =
      fun p => sumRange
        (fun q => if rv (i * s + p) (j * s + q) then 1 else 0) s := by
    funext p
    exact hinner_eq p
  rw [hfun]
  have houter := sumRange_le (fun p => sumRange
      (fun q => if rv (i * s + p) (j * s + q) then 1 else 0) s) s s hinner_le
  rw [sumRangeMod_eq_sumRange]
  · exact double_sum_coveredCount rv s i j
  · rcases hM with h | h
    · exact Or.inl h
    · refine Or.inr (lt_of_le_of_lt ?_ h)
      calc sumRange _ s ≤ s * s := houter
      _ = s ^ 2 := by ring

/-- C1: for every geometry rasterization oracle, window and oversampling
factor at least 1 (default 10 when not supplied), every pixel of the
array returned by `rasterize_pctcover_geom` equals the number of covered
subpixels in the corresponding `scale x scale` block of the oversampled
binary rasterization divided by `scale^2`, hence lies in [0, 1]; the
intermediate block sum is computed in the unsigned dtype chosen by
`min_scalar_type(scale^2)`, which holds `scale^2` whenever an unsigned
width is chosen (beyond 64 bits numpy falls back to exact object
integers, modelled by modulus 0), so no wraparound occurs. -/
theorem c1_pctcover_fractional_coverage (rv : Nat → Nat → Bool) (R C : Nat)
    (scaleOpt : Option Nat) (i j : Nat) (hs : 1 ≤ scaleOpt.getD 10)
    (hi : i < R) (hj : j < C) :
    rasterize_pctcover_geom rv R C scaleOpt i j =
      (coveredCount rv (scaleOpt.getD 10) i j : ℚ) /
        ((scaleOpt.getD 10 ^ 2 : Nat) : ℚ) ∧
    0 ≤ rasterize_pctcover_geom rv R C scaleOpt i j ∧
    rasterize_pctcover_geom rv R C scaleOpt i j ≤ 1 ∧
    (∀ w, min_scalar_type_u (scaleOpt.getD 10 ^ 2) = some w →
      scaleOpt.getD 10 ^ 2 < 2 ^ w) ∧
    rasterize_pctcover_geom rv R C none =
      rasterize_pctcover_geom rv R C (some 10) := by
  have hR : 0 < R := Nat.pos_of_ne_zero fun h => by omega
  have hC : 0 < C := Nat.pos_of_ne_zero fun h => by omega
  have hval : rasterize_pctcover_geom rv R C scaleOpt i j =
      (coveredCount rv (scaleOpt.getD 10) i j : ℚ) /
        ((scaleOpt.getD 10 ^ 2 : Nat) : ℚ) := by
    show ((rebin_sum (fun p q => if rv p q then 1 else 0)
        (R * scaleOpt.getD 10) (C * scaleOpt.getD 10) R C
        (npSumDtype (min_scalar_type_u (scaleOpt.getD 10 ^ 2))) i j : ℚ)) /
        ((scaleOpt.getD 10 ^ 2 : Nat) : ℚ) = _
    rw [rebin_pctcover_exact rv R C (scaleOpt.getD 10) hs hR hC i j]
  have hsqpos : (0 : ℚ) < ((scaleOpt.getD 10 ^ 2 : Nat) : ℚ) := by
    have : 0 < scaleOpt.getD 10 ^ 2 := by positivity
    exact_mod_cast this
  refine ⟨hval, ?_, ?_, ?_, rfl⟩
  · rw [hval]
    positivity
  · rw [hval, div_le_one hsqpos]
    exact_mod_cast coveredCount_le_sq rv (scaleOpt.getD 10) i j
  · intro w hw
    exact min_scalar_type_u_holds _ w hw

/-- Witness for C1 on a 1x1 window at oversampling 2 with a fully
covering rasterization. -/
theorem c1_pctcover_fractional_coverage_witness :
    rasterize_pctcover_geom (fun _ _ => true) 1 1 (some 2) 0 0 =
      (coveredCount (fun _ _ => true) 2 0 0 : ℚ) / ((2 ^ 2 : Nat) : ℚ) ∧
    0 ≤ rasterize_pctcover_geom (fun _ _ => true) 1 1 (some 2) 0 0 ∧
    rasterize_pctcover_geom (fun _ _ => true) 1 1 (some 2) 0 0 ≤ 1 ∧
    (∀ w, min_scalar_type_u (2 ^ 2) = some w → 2 ^ 2 < 2 ^ w) ∧
    rasterize_pctcover_geom (fun _ _ => true) 1 1 none =
      rasterize_pctcover_geom (fun _ _ => true) 1 1 (some 10) :=
  c1_pctcover_fractional_coverage (fun _ _ => true) 1 1 (some 2) 0 0
    (by decide) (by decide) (by decide)

/-! ## Claim C8 -/

/-- C8 (amended): for every window transform and integer
oversampling factor `scale >= 1`, the oversampled grid used by
`rasterize_pctcover_geom` has shape `(rows*scale, cols*scale)`, keeps
the parent origin, and divides the two scale parameters `a` and `e` by
`scale`; the shear parameters, however, are set to zero rather than
scaled, so the oversampled grid covers the same geographic extent as the
native window only when the parent transform is shear-free. -/
theorem c8_oversampled_transform (t : AffineT) (R C scale : Nat)
    (hs : 1 ≤ scale) :
    pctcover_shape R C scale = (R * scale, C * scale) ∧
    (pctcover_affine t scale).c = t.c ∧
    (pctcover_affine t scale).f = t.f ∧
    (pctcover_affine t scale).a = t.a / (scale : ℚ) ∧
    (pctcover_affine t scale).e = t.e / (scale : ℚ) ∧
    (pctcover_affine t scale).b = 0 ∧
    (pctcover_affine t scale).d = 0 ∧
    (t.b = 0 → t.d = 0 →
      affine_apply (pctcover_affine t scale) ((C * scale : Nat) : ℚ)
          ((R * scale : Nat) : ℚ) = affine_apply t (C : ℚ) (R : ℚ) ∧
      affine_apply (pctcover_affine t scale) 0 0 = affine_apply t 0 0) := by
  have hsne : ((scale : ℚ)) ≠ 0 := by
    have : (0 : ℚ) < (scale : ℚ) := by exact_mod_cast hs
    exact ne_of_gt this
  refine ⟨rfl, rfl, rfl, rfl, rfl, rfl, rfl, ?_⟩
  intro hb hd
  constructor
  · unfold affine_apply pctcover_affine
    simp only [hb, hd]
    push_cast
    field_simp
    constructor <;> ring
  · unfold affine_apply pctcover_affine
    simp [hb, hd]

/-- Witness for C8 at a concrete shear-free transform. -/
theorem c8_oversampled_transform_witness :
    pctcover_shape 1 1 10 = (1 * 10, 1 * 10) ∧
    (pctcover_affine ⟨1, 0, 3, 0, -2, 7⟩ 10).c = (⟨1, 0, 3, 0, -2, 7⟩ : AffineT).c ∧
    (pctcover_affine ⟨1, 0, 3, 0, -2, 7⟩ 10).f = (⟨1, 0, 3, 0, -2, 7⟩ : AffineT).f ∧
    (pctcover_affine ⟨1, 0, 3, 0, -2, 7⟩ 10).a =
      (⟨1, 0, 3, 0, -2, 7⟩ : AffineT).a / ((10 : Nat) : ℚ) ∧
    (pctcover_affine ⟨1, 0, 3, 0, -2, 7⟩ 10).e =
      (⟨1, 0, 3, 0, -2, 7⟩ : AffineT).e / ((10 : Nat) : ℚ) ∧
    (pctcover_affine ⟨1, 0, 3, 0, -2, 7⟩ 10).b = 0 ∧
    (pctcover_affine ⟨1, 0, 3, 0, -2, 7⟩ 10).d = 0 ∧
    ((⟨1, 0, 3, 0, -2, 7⟩ : AffineT).b = 0 →
      (⟨1, 0, 3, 0, -2, 7⟩ : AffineT).d = 0 →
      affine_apply (pctcover_affine ⟨1, 0, 3, 0, -2, 7⟩ 10)
          ((1 * 10 : Nat) : ℚ) ((1 * 10 : Nat) : ℚ) =
        affine_apply ⟨1, 0, 3, 0, -2, 7⟩ ((1 : Nat) : ℚ) ((1 : Nat) : ℚ) ∧
      affine_apply (pctcover_affine ⟨1, 0, 3, 0, -2, 7⟩ 10) 0 0 =
        affine_apply ⟨1, 0, 3, 0, -2, 7⟩ 0 0) :=
  c8_oversampled_transform ⟨1, 0, 3, 0, -2, 7⟩ 1 1 10 (by decide)

/-- Counterexample for C8 as stated: for a parent transform with shear
term `b = 1` the code's oversampled transform is not the parent composed
with a `1/scale` scaling (its shear entry is 0, not `1/10`), and the
oversampled grid corner maps to a different geographic point than the
native window corner. -/
theorem c8_counterexample :
    pctcover_affine ⟨1, 1, 0, 0, -1, 0⟩ 10 ≠
      affine_scaled ⟨1, 1, 0, 0, -1, 0⟩ 10 ∧
    affine_apply (pctcover_affine ⟨1, 1, 0, 0, -1, 0⟩ 10) 10 10 ≠
      affine_apply ⟨1, 1, 0, 0, -1, 0⟩ 1 1 := by
  constructor
  · intro h
    have hb := congrArg AffineT.b h
    simp [pctcover_affine, affine_scaled] at hb
  · simp [affine_apply, pctcover_affine]

/-! ## Claim C7 -/

/-- C7 (amended): for a shear-free north-up transform (`b = d = 0`,
`a > 0 > e`), `boxify_points` maps a Point to exactly one box: the
geographic footprint of the pixel `(row, col) = (floor((y-f)/e),
floor((x-c)/a))` — which does contain the point — shrunk inward on every
side by 1% of `abs(min(a, e))`, the absolute value of the signed minimum
of the two scale parameters (equal to the y pixel size `-e` here, not
necessarily the smaller of the two absolute pixel sizes); a MultiPoint
yields one such box per point, and every non-Point geometry type raises
`ValueError`. -/
theorem c7_boxify_points (x y : ℚ) (t : AffineT) (hb : t.b = 0)
    (hd : t.d = 0) (ha : 0 < t.a) (he : t.e < 0) :
    boxify_points (.point x y) t =
      .ok [⟨t.c + (⌊(x - t.c) / t.a⌋ : ℚ) * t.a + |min t.a t.e| / 100,
            t.f + ((⌊(y - t.f) / t.e⌋ : ℚ) + 1) * t.e + |min t.a t.e| / 100,
            t.c + ((⌊(x - t.c) / t.a⌋ : ℚ) + 1) * t.a - |min t.a t.e| / 100,
            t.f + (⌊(y - t.f) / t.e⌋ : ℚ) * t.e - |min t.a t.e| / 100⟩] ∧
    (t.c + (⌊(x - t.c) / t.a⌋ : ℚ) * t.a ≤ x ∧
      x < t.c + ((⌊(x - t.c) / t.a⌋ : ℚ) + 1) * t.a) ∧
    (t.f + ((⌊(y - t.f) / t.e⌋ : ℚ) + 1) * t.e < y ∧
      y ≤ t.f + (⌊(y - t.f) / t.e⌋ : ℚ) * t.e) ∧
    |min t.a t.e| = -t.e ∧
    (∀ pts, boxify_points (.multipoint pts) t =
      .ok (pts.map (box_for_point t (-(1 / 100 : ℚ) * |min t.a t.e|)))) ∧
    boxify_points .linestring t = .error "Points or multipoints only" ∧
    boxify_points .multilinestring t = .error "Points or multipoints only" ∧
    boxify_points .polygon t = .error "Points or multipoints only" ∧
    boxify_points .multipolygon t = .error "Points or multipoints only" := by
  have hane : t.a ≠ 0 := ne_of_gt ha
  have hene : t.e ≠ 0 := ne_of_lt he
  refine ⟨?_, ⟨?_, ?_⟩, ⟨?_, ?_⟩, ?_, ?_, rfl, rfl, rfl, rfl⟩
  · have ht : strContains (typeName (GeomT.point x y)) "Point" = true := rfl
    rw [boxify_points, ht]
    simp only [Bool.true_eq_false, if_false, List.map_cons, List.map_nil,
      box_for_point, rast_index, window_bounds, affine_apply, shapely_box,
      rect_buffer, hb, hd]
    refine congrArg Except.ok (congrArg (fun r => [r]) ?_)
    rw [RectQ.mk.injEq]
    refine ⟨by push_cast; ring, by push_cast; ring, by push_cast; ring,
      by push_cast; ring⟩
  · have h1 : ((⌊(x - t.c) / t.a⌋ : ℚ)) ≤ (x - t.c) / t.a := Int.floor_le _
    rw [le_div_iff₀ ha] at h1
    linarith
  · have h2 : (x - t.c) / t.a < (⌊(x - t.c) / t.a⌋ : ℚ) + 1 :=
      Int.lt_floor_add_one _
    rw [div_lt_iff₀ ha] at h2
    linarith
  · have h2 : (y - t.f) / t.e < (⌊(y - t.f) / t.e⌋ : ℚ) + 1 :=
      Int.lt_floor_add_one _
    rw [div_lt_iff_of_neg he] at h2
    linarith
  · have h1 : ((⌊(y - t.f) / t.e⌋ : ℚ)) ≤ (y - t.f) / t.e := Int.floor_le _
    rw [le_div_iff_of_neg he] at h1
    linarith
  · rw [min_eq_right (le_of_lt (lt_trans he ha)), abs_of_neg he]
  · intro pts
    have ht : strContains (typeName (GeomT.multipoint pts)) "Point" =
        true := rfl
    rw [boxify_points, ht]
    simp

/-- Witness for C7 at a unit north-up transform and the point
`(1/2, -1/2)`. -/
theorem c7_boxify_points_witness :
    boxify_points (.point (1 / 2) (-1 / 2)) ⟨1, 0, 0, 0, -1, 0⟩ =
      .ok [⟨(0 : ℚ) + (⌊((1 / 2 : ℚ) - 0) / 1⌋ : ℚ) * 1 +
              |min (1 : ℚ) (-1)| / 100,
            (0 : ℚ) + ((⌊((-1 / 2 : ℚ) - 0) / (-1)⌋ : ℚ) + 1) * (-1) +
              |min (1 : ℚ) (-1)| / 100,
            (0 : ℚ) + ((⌊((1 / 2 : ℚ) - 0) / 1⌋ : ℚ) + 1) * 1 -
              |min (1 : ℚ) (-1)| / 100,
            (0 : ℚ) + (⌊((-1 / 2 : ℚ) - 0) / (-1)⌋ : ℚ) * (-1) -
              |min (1 : ℚ) (-1)| / 100⟩] ∧
    |min (1 : ℚ) (-1)| = -(-1 : ℚ) :=
  ⟨(c7_boxify_points (1 / 2) (-1 / 2) ⟨1, 0, 0, 0, -1, 0⟩ rfl rfl
      (by norm_num) (by norm_num)).1,
   (c7_boxify_points (1 / 2) (-1 / 2) ⟨1, 0, 0, 0, -1, 0⟩ rfl rfl
      (by norm_num) (by norm_num)).2.2.2.1⟩

/-- Counterexample for C7 as stated: for the transform with pixel sizes
`a = 1`, `e = -2` the claim's shrink distance is 1% of the smaller
absolute pixel size (0.01), but the code shrinks by 1% of
`abs(min(1, -2)) = 2`, i.e. 0.02 — the returned box differs from the box
built per the claim's words. -/
theorem c7_counterexample :
    boxify_points (.point (1 / 2) (-1)) ⟨1, 0, 0, 0, -2, 0⟩ =
      .ok [⟨1 / 50, -99 / 50, 49 / 50, -1 / 50⟩] ∧
    boxify_points_spec (.point (1 / 2) (-1)) ⟨1, 0, 0, 0, -2, 0⟩ =
      .ok [⟨1 / 100, -199 / 100, 99 / 100, -1 / 100⟩] ∧
    boxify_points (.point (1 / 2) (-1)) ⟨1, 0, 0, 0, -2, 0⟩ ≠
      boxify_points_spec (.point (1 / 2) (-1)) ⟨1, 0, 0, 0, -2, 0⟩ := by
  have ht : strContains (typeName (GeomT.point (1 / 2) (-1))) "Point" =
      true := by decide
  have h1 : (⌊(((-1 : ℚ)) - 0) / (-2)⌋ : ℤ) = 0 := by
    rw [Int.floor_eq_zero_iff]
    constructor <;> norm_num
  have h2 : (⌊(((1 : ℚ) / 2) - 0) / 1⌋ : ℤ) = 0 := by
    rw [Int.floor_eq_zero_iff]
    constructor <;> norm_num
  have hcode : boxify_points (.point (1 / 2) (-1)) ⟨1, 0, 0, 0, -2, 0⟩ =
      .ok [⟨1 / 50, -99 / 50, 49 / 50, -1 / 50⟩] := by
    rw [boxify_points, ht]
    simp only [box_for_point, rast_index, window_bounds, affine_apply,
      shapely_box, rect_buffer, List.map]
    rw [h1, h2]
    norm_num
  have hspec : boxify_points_spec (.point (1 / 2) (-1)) ⟨1, 0, 0, 0, -2, 0⟩ =
      .ok [⟨1 / 100, -199 / 100, 99 / 100, -1 / 100⟩] := by
    rw [boxify_points_spec, ht]
    simp only [box_for_point, rast_index, window_bounds, affine_apply,
      shapely_box, rect_buffer, List.map]
    rw [h1, h2]
    norm_num
  refine ⟨hcode, hspec, ?_⟩
  rw [hcode, hspec]
  intro h
  have hx := congrArg (fun r => match r with
    | Except.ok (rect :: _) => rect.minx
    | _ => 0) h
  norm_num at hx
